import Mathlib

/-!
Verification development for the batch-processing engine of
ModelRouter-Distribution (`run_batch.py`).

The file model: a ledger or cache file is a list of lines, a line is a list
of characters.  The external completion service is a deterministic function
from the prompt text to a typed call result, matching the fact that the code
passes only the prompt (all other request parameters are fixed constants).
-/

/-- Models the Python truthiness test of `line.strip()`: a line is blank
exactly when every character is whitespace (an empty line included). -/
def isBlank (line : List Char) : Bool := line.all Char.isWhitespace

/-- Escape one character the way the JSON serializer does for the characters
the program writes inside string literals. -/
def escChar (c : Char) : List Char :=
  if c = '"' ∨ c = '\\' then ['\\', c]
  else if c = '\n' then ['\\', 'n']
  else if c = '\t' then ['\\', 't']
  else if c = '\r' then ['\\', 'r']
  else [c]

/-- Serialize a text value as a JSON string literal (quotes and escapes). -/
def jsonStr (s : String) : List Char :=
  '"' :: s.data.foldr (fun c acc => escChar c ++ acc) ['"']

/-- One ledger record: the dict the loop builds before serializing it. -/
structure ResultRecord where
  prompt : String
  model : String
  output : String
deriving DecidableEq

/-- The serialized ledger line for one record: models `json.dumps(record)`
for the three-field dict, fields in insertion order, default separators. -/
def recordLine (r : ResultRecord) : List Char :=
  ['{'] ++ jsonStr "prompt" ++ [':', ' '] ++ jsonStr r.prompt
        ++ [',', ' '] ++ jsonStr "model" ++ [':', ' '] ++ jsonStr r.model
        ++ [',', ' '] ++ jsonStr "output" ++ [':', ' '] ++ jsonStr r.output
        ++ ['}']

/-- The serialized cache line for one prompt: models `json.dumps` of the
one-field prompt dict written by `load_prompts`. -/
def cacheLine (p : String) : List Char :=
  ['{'] ++ jsonStr "prompt" ++ [':', ' '] ++ jsonStr p ++ ['}']

/-- Models `count_existing_results`: a missing file is created empty and
counted as 0; otherwise the non-blank lines are counted one by one, in file
order.  Returns the file as it exists after the call together with the
count. -/
def count_existing_results : Option (List (List Char)) → List (List Char) × Nat
  | none => ([], 0)
  | some lines =>
    (lines, lines.foldl (fun acc line => if isBlank line then acc else acc + 1) 0)

/-- The record count the run reads from a file state. -/
def processedOf (file : Option (List (List Char))) : Nat :=
  (count_existing_results file).2

/-- A chat message as read by the loop body. -/
structure ChatMessage where
  content : String
deriving DecidableEq

/-- One choice of a chat completion response; the code guards on the message
being present, so it is optional here. -/
structure ChatChoice where
  message : Option ChatMessage
deriving DecidableEq

/-- A chat completion response: a model identifier and zero or more
choices. -/
structure ChatResponse where
  model : String
  choices : List ChatChoice
deriving DecidableEq

/-- Typed result of one `chat.completions.create` call: a response, a
timeout (`APITimeoutError` or `TimeoutException`), or any other raised
exception carrying its description. -/
inductive CallResult where
  | ok : ChatResponse → CallResult
  | timeout : CallResult
  | failed : String → CallResult
deriving DecidableEq

/-- Deterministic model of the external completion service as the run
consults it: the outcome depends only on the prompt text. -/
def Service : Type := String → CallResult

/-- The record the loop body appends for one prompt, if any: `none` when the
call times out, raises, or returns zero choices; otherwise the record built
from the prompt, the response model and the first choice's message content
(empty text when the message object is absent). -/
def outcomeRecord (svc : Service) (prompt : String) : Option ResultRecord :=
  match svc prompt with
  | CallResult.ok resp =>
    match resp.choices with
    | [] => none
    | choice :: _ =>
      some ⟨prompt, resp.model,
        match choice.message with
        | some m => m.content
        | none => ""⟩
  | CallResult.timeout => none
  | CallResult.failed _ => none

/-- The serialized line the loop body appends for one prompt, if any. -/
def lineOf (svc : Service) (prompt : String) : Option (List Char) :=
  (outcomeRecord svc prompt).map recordLine

/-- A call result that the loop skips: timeout, raised error, or a response
with zero choices. -/
def isFailure : CallResult → Bool
  | CallResult.ok resp => resp.choices.isEmpty
  | CallResult.timeout => true
  | CallResult.failed _ => true

/-- The per-item loop of `process_prompts` over the working slice, carrying
the open results file, the submissions made so far as pairs of zero-based
source index and prompt, and the source index of the next item. -/
def runLoop (svc : Service) : List String → List (List Char) →
    List (Nat × String) → Nat → List (List Char) × List (Nat × String)
  | [], file, subs, _ => (file, subs)
  | prompt :: rest, file, subs, idx =>
    match svc prompt with
    | CallResult.timeout => runLoop svc rest file (subs ++ [(idx, prompt)]) (idx + 1)
    | CallResult.failed _ => runLoop svc rest file (subs ++ [(idx, prompt)]) (idx + 1)
    | CallResult.ok resp =>
      match resp.choices with
      | [] => runLoop svc rest file (subs ++ [(idx, prompt)]) (idx + 1)
      | choice :: _ =>
        runLoop svc rest
          (file ++ [recordLine ⟨prompt, resp.model,
            match choice.message with
            | some m => m.content
            | none => ""⟩])
          (subs ++ [(idx, prompt)]) (idx + 1)

/-- The source constant STOP_AFTER_LIMIT. -/
def STOP_AFTER_LIMIT : Bool := true

/-- The source constant OUTPUT_LIMIT. -/
def OUTPUT_LIMIT : Nat := 1000

/-- The two module-level policy constants, passed explicitly so the claims
can quantify over them. -/
structure Config where
  stopAfterLimit : Bool
  outputLimit : Nat
deriving DecidableEq

/-- What a run leaves behind: the results file, the submissions made to the
completion client in order, and whether the final limit-reached report was
printed. -/
structure RunResult where
  file : List (List Char)
  submitted : List (Nat × String)
  limitReported : Bool
deriving DecidableEq

/-- Models `process_prompts`: read the existing count, run the no-op checks,
select the working slice by Python slicing, process it item by item, and
finally report the limit when `STOP_AFTER_LIMIT` holds and the pre-run count
plus the length of the working slice reaches `OUTPUT_LIMIT`. -/
def process_prompts (cfg : Config) (svc : Service)
    (file0 : Option (List (List Char))) (prompts : List String) : RunResult :=
  let total := prompts.length
  let fc := count_existing_results file0
  let processedCount := fc.2
  let proceed : Nat → RunResult := fun remainingCapacity =>
    if remainingCapacity ≤ 0 then ⟨fc.1, [], false⟩
    else if processedCount ≥ total then ⟨fc.1, [], false⟩
    else
      let promptsToProcess := (prompts.drop processedCount).take remainingCapacity
      let out := runLoop svc promptsToProcess fc.1 [] processedCount
      ⟨out.1, out.2,
        cfg.stopAfterLimit
          && decide (processedCount + promptsToProcess.length ≥ cfg.outputLimit)⟩
  if cfg.stopAfterLimit then
    if processedCount ≥ cfg.outputLimit then ⟨fc.1, [], false⟩
    else proceed (cfg.outputLimit - processedCount)
  else proceed (total - processedCount)

/-- The working slice of a run, as the code computes it by Python slicing. -/
def sliceOf (cfg : Config) (file0 : Option (List (List Char)))
    (prompts : List String) : List String :=
  let processedCount := processedOf file0
  let remainingCapacity :=
    if cfg.stopAfterLimit then
      if processedCount ≥ cfg.outputLimit then 0
      else cfg.outputLimit - processedCount
    else prompts.length - processedCount
  (prompts.drop processedCount).take remainingCapacity

/-- Iterate a sequence of runs, each one against the file left behind by the
previous one. -/
def runSequence (cfg : Config) :
    List (Service × List String) → Option (List (List Char)) →
    Option (List (List Char))
  | [], file0 => file0
  | r :: rest, file0 =>
    runSequence cfg rest (some (process_prompts cfg r.1 file0 r.2).file)

/-- Result of `json.loads(line)` followed by the prompt-key lookup on one
cache line; `none` models a `JSONDecodeError` or a `KeyError`.  The JSON
library is an external collaborator, so the parse is a parameter. -/
def CacheParse : Type := List Char → Option String

/-- The cache-reading comprehension of `load_prompts`: parse the non-blank
lines in file order; the first failing line aborts the whole read. -/
def parseCacheLines (parse : CacheParse) : List (List Char) → Option (List String)
  | [] => some []
  | line :: rest =>
    if isBlank line then parseCacheLines parse rest
    else
      match parse line with
      | none => none
      | some p => (parseCacheLines parse rest).map (fun ps => p :: ps)

/-- Models `load_prompts`: an existing cache that parses is returned
verbatim; a corrupt cache is deleted and the upstream dataset is fetched,
written to a fresh cache and returned — exactly as when the cache is
missing.  Returns the cache file as it exists afterwards and the prompts. -/
def load_prompts (parse : CacheParse) (dataset : List String) :
    Option (List (List Char)) → Option (List (List Char)) × List String
  | some lines =>
    match parseCacheLines parse lines with
    | some prompts => (some lines, prompts)
    | none => (some (dataset.map cacheLine), dataset)
  | none => (some (dataset.map cacheLine), dataset)

/-- The number of items remaining to process, written as the specification
states it: the minimum of the limit headroom and the unprocessed suffix
when limited, the unprocessed suffix otherwise.  Stated for comparison with
the slice the code computes. -/
def specRemaining (cfg : Config) (processedCount total : Nat) : Nat :=
  if cfg.stopAfterLimit then
    min (cfg.outputLimit - processedCount) (total - processedCount)
  else total - processedCount

/-- The configuration the source module runs with. -/
def srcCfg : Config := ⟨STOP_AFTER_LIMIT, OUTPUT_LIMIT⟩

/-- A service that answers every prompt with one contentful choice. -/
def svcAllOk : Service := fun _ => CallResult.ok ⟨"m", [⟨some ⟨"out"⟩⟩]⟩

/-- A service that raises on the prompt a and succeeds elsewhere. -/
def svcFailA : Service := fun p =>
  if p = "a" then CallResult.failed "boom" else svcAllOk p

/-- A service that times out on the prompt a and succeeds elsewhere. -/
def svcTimeoutA : Service := fun p =>
  if p = "a" then CallResult.timeout else svcAllOk p

/-- A service that times out on the prompt p2 and succeeds elsewhere. -/
def svcScenario4 : Service := fun p =>
  if p = "p2" then CallResult.timeout else CallResult.ok ⟨"m", [⟨some ⟨"o"⟩⟩]⟩

/-- A service whose responses carry one choice with no message object. -/
def svcNoMessage : Service := fun _ => CallResult.ok ⟨"m", [⟨none⟩]⟩

/-- A cache parse on which every line fails. -/
def parseNone : CacheParse := fun _ => none

/-! Helper lemmas shared by the claim theorems. -/

theorem count_foldl_eq_filter (lines : List (List Char)) : ∀ n : Nat,
    lines.foldl (fun acc line => if isBlank line then acc else acc + 1) n
      = n + (lines.filter fun l => !(isBlank l)).length := by
  induction lines with
  | nil => intro n; simp
  | cons l rest ih =>
    intro n
    by_cases h : isBlank l
    · simp [List.foldl_cons, h, ih, List.filter_cons]
    · simp [List.foldl_cons, h, ih, List.filter_cons]
      omega

theorem processedOf_some (lines : List (List Char)) :
    processedOf (some lines) = (lines.filter fun l => !(isBlank l)).length := by
  simpa [processedOf, count_existing_results] using count_foldl_eq_filter lines 0

theorem isBlank_recordLine (r : ResultRecord) : isBlank (recordLine r) = false := by
  have h : recordLine r = '{' :: (jsonStr "prompt" ++ [':', ' '] ++ jsonStr r.prompt
      ++ [',', ' '] ++ jsonStr "model" ++ [':', ' '] ++ jsonStr r.model
      ++ [',', ' '] ++ jsonStr "output" ++ [':', ' '] ++ jsonStr r.output
      ++ ['}']) := by
    simp [recordLine]
  rw [h]
  simp [isBlank]

theorem processedOf_fst (file0 : Option (List (List Char))) :
    processedOf (some (count_existing_results file0).1) = processedOf file0 := by
  cases file0 with
  | none => rfl
  | some lines => rfl

theorem processedOf_append_records (file : List (List Char))
    (recs : List ResultRecord) :
    processedOf (some (file ++ recs.map recordLine))
      = processedOf (some file) + recs.length := by
  rw [processedOf_some, processedOf_some, List.filter_append]
  have h : (recs.map recordLine).filter (fun l => !(isBlank l)) = recs.map recordLine := by
    rw [List.filter_eq_self]
    intro a ha
    rcases List.mem_map.1 ha with ⟨r, _, rfl⟩
    simp [isBlank_recordLine]
  rw [h, List.length_append, List.length_map]

theorem runLoop_spec (svc : Service) (ps : List String) : ∀ (file : List (List Char))
    (subs : List (Nat × String)) (idx : Nat),
    runLoop svc ps file subs idx =
      (file ++ ps.filterMap (lineOf svc),
       subs ++ (List.range' idx ps.length).zip ps) := by
  induction ps with
  | nil => intro file subs idx; simp [runLoop]
  | cons p rest ih =>
    intro file subs idx
    rw [List.length_cons, List.range'_succ, List.zip_cons_cons]
    cases h : svc p with
    | timeout =>
      have hl : lineOf svc p = none := by simp [lineOf, outcomeRecord, h]
      simp only [runLoop, h, ih, List.filterMap_cons_none hl, List.append_assoc,
        List.singleton_append]
    | failed e =>
      have hl : lineOf svc p = none := by simp [lineOf, outcomeRecord, h]
      simp only [runLoop, h, ih, List.filterMap_cons_none hl, List.append_assoc,
        List.singleton_append]
    | ok resp =>
      cases hc : resp.choices with
      | nil =>
        have hl : lineOf svc p = none := by simp [lineOf, outcomeRecord, h, hc]
        simp only [runLoop, h, hc, ih, List.filterMap_cons_none hl, List.append_assoc,
          List.singleton_append]
      | cons choice more =>
        have hl : lineOf svc p = some (recordLine ⟨p, resp.model,
            match choice.message with
            | some m => m.content
            | none => ""⟩) := by
          simp [lineOf, outcomeRecord, h, hc]
        simp only [runLoop, h, hc, ih, List.filterMap_cons_some hl, List.append_assoc,
          List.singleton_append]

theorem process_prompts_proceed (cfg : Config) (svc : Service)
    (file0 : Option (List (List Char))) (prompts : List String)
    (hstop : cfg.stopAfterLimit = true → processedOf file0 < cfg.outputLimit)
    (htot : processedOf file0 < prompts.length) :
    process_prompts cfg svc file0 prompts =
      ⟨(count_existing_results file0).1
          ++ (sliceOf cfg file0 prompts).filterMap (lineOf svc),
       (List.range' (processedOf file0) (sliceOf cfg file0 prompts).length).zip
          (sliceOf cfg file0 prompts),
       cfg.stopAfterLimit
         && decide (processedOf file0 + (sliceOf cfg file0 prompts).length
              ≥ cfg.outputLimit)⟩ := by
  simp only [processedOf] at hstop htot
  cases hS : cfg.stopAfterLimit with
  | true =>
    have hL := hstop hS
    have h1 : ¬ (cfg.outputLimit ≤ (count_existing_results file0).2) := by omega
    have h2 : ¬ (cfg.outputLimit - (count_existing_results file0).2 ≤ 0) := by omega
    have h3 : ¬ (prompts.length ≤ (count_existing_results file0).2) := by omega
    simp [process_prompts, sliceOf, processedOf, hS, h1, h2, h3, runLoop_spec]
  | false =>
    have h2 : ¬ (prompts.length - (count_existing_results file0).2 ≤ 0) := by omega
    have h3 : ¬ (prompts.length ≤ (count_existing_results file0).2) := by omega
    simp [process_prompts, sliceOf, processedOf, hS, h2, h3, runLoop_spec]

theorem process_prompts_noop (cfg : Config) (svc : Service)
    (file0 : Option (List (List Char))) (prompts : List String)
    (h : (cfg.stopAfterLimit = true ∧ cfg.outputLimit ≤ processedOf file0)
        ∨ prompts.length ≤ processedOf file0) :
    process_prompts cfg svc file0 prompts
      = ⟨(count_existing_results file0).1, [], false⟩ := by
  simp only [processedOf] at h
  cases hS : cfg.stopAfterLimit with
  | false =>
    have ht : prompts.length ≤ (count_existing_results file0).2 := by
      rcases h with ⟨hh, _⟩ | ht
      · rw [hS] at hh; exact absurd hh (by simp)
      · exact ht
    have h2 : prompts.length - (count_existing_results file0).2 ≤ 0 := by omega
    simp [process_prompts, hS, h2]
  | true =>
    by_cases hL : cfg.outputLimit ≤ (count_existing_results file0).2
    · simp [process_prompts, hS, hL]
    · have ht : prompts.length ≤ (count_existing_results file0).2 := by
        rcases h with ⟨_, hL2⟩ | ht
        · exact absurd hL2 hL
        · exact ht
      have h2 : ¬ (cfg.outputLimit - (count_existing_results file0).2 ≤ 0) := by omega
      simp [process_prompts, hS, hL, h2, ht]

theorem process_prompts_cases (cfg : Config) (svc : Service)
    (file0 : Option (List (List Char))) (prompts : List String) :
    ((cfg.stopAfterLimit = true → processedOf file0 < cfg.outputLimit)
        ∧ processedOf file0 < prompts.length)
    ∨ (((cfg.stopAfterLimit = true ∧ cfg.outputLimit ≤ processedOf file0)
          ∨ prompts.length ≤ processedOf file0)
        ∧ process_prompts cfg svc file0 prompts
            = ⟨(count_existing_results file0).1, [], false⟩) := by
  by_cases htot : processedOf file0 < prompts.length
  · by_cases hL : cfg.stopAfterLimit = true → processedOf file0 < cfg.outputLimit
    · exact Or.inl ⟨hL, htot⟩
    · push_neg at hL
      have hc : (cfg.stopAfterLimit = true ∧ cfg.outputLimit ≤ processedOf file0)
          ∨ prompts.length ≤ processedOf file0 := Or.inl ⟨hL.1, by omega⟩
      exact Or.inr ⟨hc, process_prompts_noop _ _ _ _ hc⟩
  · have hc : (cfg.stopAfterLimit = true ∧ cfg.outputLimit ≤ processedOf file0)
        ∨ prompts.length ≤ processedOf file0 := Or.inr (by omega)
    exact Or.inr ⟨hc, process_prompts_noop _ _ _ _ hc⟩

theorem proceed_of_slice_ne_nil (cfg : Config) (file0 : Option (List (List Char)))
    (prompts : List String) (h : sliceOf cfg file0 prompts ≠ []) :
    (cfg.stopAfterLimit = true → processedOf file0 < cfg.outputLimit)
      ∧ processedOf file0 < prompts.length := by
  constructor
  · intro hS
    by_contra hL
    apply h
    have hL2 : cfg.outputLimit ≤ processedOf file0 := by omega
    simp [sliceOf, hS, hL2]
  · by_contra ht
    apply h
    have hd : prompts.drop (processedOf file0) = [] :=
      List.drop_eq_nil_of_le (by omega)
    simp [sliceOf, hd]

theorem sliceOf_length (cfg : Config) (file0 : Option (List (List Char)))
    (prompts : List String)
    (hstop : cfg.stopAfterLimit = true → processedOf file0 < cfg.outputLimit) :
    (sliceOf cfg file0 prompts).length
      = specRemaining cfg (processedOf file0) prompts.length := by
  cases hS : cfg.stopAfterLimit with
  | true =>
    have hL := hstop hS
    have h1 : ¬ (cfg.outputLimit ≤ processedOf file0) := by omega
    simp [sliceOf, specRemaining, hS, h1, List.length_take, List.length_drop]
  | false =>
    simp [sliceOf, specRemaining, hS, List.length_take, List.length_drop]

theorem sliceOf_eq_spec (cfg : Config) (file0 : Option (List (List Char)))
    (prompts : List String)
    (hstop : cfg.stopAfterLimit = true → processedOf file0 < cfg.outputLimit) :
    sliceOf cfg file0 prompts
      = (prompts.drop (processedOf file0)).take
          (specRemaining cfg (processedOf file0) prompts.length) := by
  cases hS : cfg.stopAfterLimit with
  | false => simp [sliceOf, specRemaining, hS]
  | true =>
    have hL := hstop hS
    have h1 : ¬ (cfg.outputLimit ≤ processedOf file0) := by omega
    simp only [sliceOf, specRemaining, hS, if_true, ge_iff_le, if_neg h1]
    rw [List.take_eq_take, List.length_drop]
    omega

theorem mem_zip_range' {α : Type} : ∀ (l : List α) (s : Nat) (q : Nat × α),
    q ∈ (List.range' s l.length).zip l →
      ∃ k, k < l.length ∧ q.1 = s + k ∧ l[k]? = some q.2 := by
  intro l
  induction l with
  | nil => intro s q h; simp at h
  | cons a t ih =>
    intro s q h
    rw [List.length_cons, List.range'_succ, List.zip_cons_cons] at h
    rcases List.mem_cons.1 h with rfl | h2
    · exact ⟨0, by simp, by simp, by simp⟩
    · rcases ih (s + 1) q h2 with ⟨k, hk, hq1, hq2⟩
      refine ⟨k + 1, by simp only [List.length_cons]; omega, by omega, ?_⟩
      simpa [List.getElem?_cons_succ] using hq2

theorem lineOf_eq_none_of_isFailure (svc : Service) (p : String)
    (hfail : isFailure (svc p) = true) : lineOf svc p = none := by
  cases h : svc p with
  | ok resp =>
    rw [h] at hfail
    simp only [isFailure, List.isEmpty_iff] at hfail
    simp [lineOf, outcomeRecord, h, hfail]
  | timeout => simp [lineOf, outcomeRecord, h]
  | failed e => simp [lineOf, outcomeRecord, h]

theorem filterMap_length_of_forall_isSome {α β : Type} (f : α → Option β) :
    ∀ l : List α, (∀ a ∈ l, (f a).isSome) → (l.filterMap f).length = l.length := by
  intro l
  induction l with
  | nil => intro _; rfl
  | cons a rest ih =>
    intro h
    rcases Option.isSome_iff_exists.1 (h a (List.mem_cons_self a rest)) with ⟨b, hb⟩
    rw [List.filterMap_cons_some hb, List.length_cons, List.length_cons,
      ih fun x hx => h x (List.mem_cons_of_mem a hx)]

theorem getElem?_take_drop {α : Type} (l : List α) (pc n k : Nat) (v : α)
    (h : ((l.drop pc).take n)[k]? = some v) : l[pc + k]? = some v := by
  rw [List.getElem?_take] at h
  by_cases hk : k < n
  · rw [if_pos hk] at h
    rw [← List.getElem?_drop]
    exact h
  · rw [if_neg hk] at h
    cases h

theorem run_count_le (cfg : Config) (svc : Service)
    (file0 : Option (List (List Char))) (prompts : List String)
    (hstop : cfg.stopAfterLimit = true)
    (h : processedOf file0 ≤ cfg.outputLimit) :
    processedOf (some (process_prompts cfg svc file0 prompts).file)
      ≤ cfg.outputLimit := by
  rcases process_prompts_cases cfg svc file0 prompts with ⟨hL, htot⟩ | ⟨_, heq⟩
  · rw [process_prompts_proceed cfg svc file0 prompts hL htot]
    have hmap : (sliceOf cfg file0 prompts).filterMap (lineOf svc)
        = ((sliceOf cfg file0 prompts).filterMap (outcomeRecord svc)).map recordLine := by
      rw [List.map_filterMap]
      rfl
    simp only [hmap]
    rw [processedOf_append_records, processedOf_fst]
    have hbound := List.length_filterMap_le (outcomeRecord svc) (sliceOf cfg file0 prompts)
    have hlen := sliceOf_length cfg file0 prompts hL
    have hLpc := hL hstop
    rw [hlen] at hbound
    simp only [specRemaining, hstop, if_true] at hbound
    omega
  · rw [heq]
    simpa only [processedOf_fst] using h

theorem parseCacheLines_eq_none (parse : CacheParse) :
    ∀ (lines : List (List Char)) (l : List Char), l ∈ lines → isBlank l = false →
      parse l = none → parseCacheLines parse lines = none := by
  intro lines
  induction lines with
  | nil => intro l h; simp at h
  | cons a rest ih =>
    intro l hmem hbl hp
    rcases List.mem_cons.1 hmem with rfl | h2
    · simp [parseCacheLines, hbl, hp]
    · by_cases hb : isBlank a
      · simpa [parseCacheLines, hb] using ih l h2 hbl hp
      · cases hpa : parse a with
        | none => simp [parseCacheLines, hb, hpa]
        | some v => simp [parseCacheLines, hb, hpa, ih l h2 hbl hp]

/-! Claim theorems. -/

/-- C1, counterexample to the claim as stated: with the limit enabled and
outputLimit 1, a starting ledger already holding two records still holds two
records after the run, which exceeds the limit — the universal claim over
every starting ledger fails. -/
theorem c1_limit_counterexample :
    1 < processedOf
      (some (process_prompts ⟨true, 1⟩ svcAllOk
        (some [['x'], ['x']]) ["a"]).file) := by
  decide

/-- C1 (amended): for every run sequence with limitEnabled and outputLimit L,
and every starting ledger holding at most L records, the record count after
any sequence of runs never exceeds L. -/
theorem c1_limit_preserved (cfg : Config) (runs : List (Service × List String))
    (file0 : Option (List (List Char)))
    (hstop : cfg.stopAfterLimit = true)
    (h0 : processedOf file0 ≤ cfg.outputLimit) :
    processedOf (runSequence cfg runs file0) ≤ cfg.outputLimit := by
  induction runs generalizing file0 with
  | nil => simpa [runSequence] using h0
  | cons r rest ih =>
    simp only [runSequence]
    exact ih _ (run_count_le cfg r.1 file0 r.2 hstop h0)

/-- Witness for C1: a concrete limited run sequence keeps the count at most
the limit. -/
theorem c1_limit_preserved_witness :
    processedOf (none : Option (List (List Char))) ≤ 1
      ∧ processedOf (runSequence ⟨true, 1⟩ [(svcAllOk, ["a", "b"])] none) ≤ 1 :=
  ⟨by decide, c1_limit_preserved ⟨true, 1⟩ [(svcAllOk, ["a", "b"])] none rfl (by decide)⟩

/-- C2: no prompt at a source index below the pre-run record count is ever
submitted to the completion client during the run. -/
theorem c2_no_duplication (cfg : Config) (svc : Service)
    (file0 : Option (List (List Char))) (prompts : List String)
    (i : Nat) (p : String) (h : i < processedOf file0) :
    (i, p) ∉ (process_prompts cfg svc file0 prompts).submitted := by
  rcases process_prompts_cases cfg svc file0 prompts with ⟨hL, htot⟩ | ⟨_, heq⟩
  · rw [process_prompts_proceed cfg svc file0 prompts hL htot]
    intro hmem
    rcases mem_zip_range' _ _ _ hmem with ⟨k, _, hq1, _⟩
    simp only [] at hq1
    omega
  · rw [heq]
    simp

/-- Witness for C2: with one existing record, index 0 is not submitted. -/
theorem c2_no_duplication_witness :
    0 < processedOf (some [['x']])
      ∧ (0, "a") ∉ (process_prompts srcCfg svcAllOk (some [['x']]) ["a", "b"]).submitted :=
  ⟨by decide,
   c2_no_duplication srcCfg svcAllOk (some [['x']]) ["a", "b"] 0 "a" (by decide)⟩

/-- C3: in a run that passes the no-op checks, the submissions are exactly
the contiguous slice of the source at indices from processedCount of length
remaining, where remaining follows the specification formula; every
submitted pair carries the prompt stored at its source index. -/
theorem c3_working_slice (cfg : Config) (svc : Service)
    (file0 : Option (List (List Char))) (prompts : List String)
    (hstop : cfg.stopAfterLimit = true → processedOf file0 < cfg.outputLimit)
    (htot : processedOf file0 < prompts.length) :
    (process_prompts cfg svc file0 prompts).submitted
        = (List.range' (processedOf file0)
              (specRemaining cfg (processedOf file0) prompts.length)).zip
            ((prompts.drop (processedOf file0)).take
              (specRemaining cfg (processedOf file0) prompts.length))
      ∧ ∀ q ∈ (process_prompts cfg svc file0 prompts).submitted,
          prompts[q.1]? = some q.2 := by
  have hchar := process_prompts_proceed cfg svc file0 prompts hstop htot
  have hlen := sliceOf_length cfg file0 prompts hstop
  have hsp := sliceOf_eq_spec cfg file0 prompts hstop
  constructor
  · rw [hchar]
    simp only []
    rw [hlen]
    rw [hsp]
  · intro q hq
    rw [hchar] at hq
    simp only [] at hq
    rcases mem_zip_range' _ _ _ hq with ⟨k, hk, hq1, hq2⟩
    rw [hsp] at hq2
    rw [hq1]
    exact getElem?_take_drop prompts (processedOf file0) _ k q.2 hq2

/-- Witness for C3: a fresh two-prompt run submits exactly the two prompts
with their indices. -/
theorem c3_working_slice_witness :
    (process_prompts srcCfg svcAllOk none ["a", "b"]).submitted
      = [(0, "a"), (1, "b")] := by
  rw [(c3_working_slice srcCfg svcAllOk none ["a", "b"]
    (fun _ => by decide) (by decide)).1]
  decide

/-- C4, counterexample to the claim as stated: with a service that
deterministically fails on the first prompt and succeeds on the second, the
second run re-submits the already recorded second prompt and appends a
duplicate, so two runs differ from one. -/
theorem c4_idempotent_counterexample :
    (process_prompts srcCfg svcFailA
        (some (process_prompts srcCfg svcFailA none ["a", "b"]).file) ["a", "b"]).file
      ≠ (process_prompts srcCfg svcFailA none ["a", "b"]).file := by
  decide

/-- C4 (amended): when every submission of the run succeeds (the service
returns a response with at least one choice for every prompt), a second
uninterrupted run appends nothing: the ledger equals that of a single run. -/
theorem c4_idempotent_resume (cfg : Config) (svc : Service)
    (file0 : Option (List (List Char))) (prompts : List String)
    (hsucc : ∀ p ∈ prompts, (outcomeRecord svc p).isSome) :
    (process_prompts cfg svc
        (some (process_prompts cfg svc file0 prompts).file) prompts).file
      = (process_prompts cfg svc file0 prompts).file := by
  rcases process_prompts_cases cfg svc file0 prompts with ⟨hL, htot⟩ | ⟨hcond, heq⟩
  · have hchar := process_prompts_proceed cfg svc file0 prompts hL htot
    have hmap : (sliceOf cfg file0 prompts).filterMap (lineOf svc)
        = ((sliceOf cfg file0 prompts).filterMap (outcomeRecord svc)).map recordLine := by
      rw [List.map_filterMap]
      rfl
    have hall : ∀ p ∈ sliceOf cfg file0 prompts, (outcomeRecord svc p).isSome := by
      intro p hp
      exact hsucc p (List.drop_subset _ _ (List.take_subset _ _ hp))
    have hfull : ((sliceOf cfg file0 prompts).filterMap (outcomeRecord svc)).length
        = (sliceOf cfg file0 prompts).length :=
      filterMap_length_of_forall_isSome _ _ hall
    have hpc2 : processedOf (some (process_prompts cfg svc file0 prompts).file)
        = processedOf file0 + (sliceOf cfg file0 prompts).length := by
      rw [hchar]
      simp only [hmap]
      rw [processedOf_append_records, processedOf_fst, hfull]
    have hlen := sliceOf_length cfg file0 prompts hL
    have hnoop2 : (cfg.stopAfterLimit = true
          ∧ cfg.outputLimit ≤ processedOf (some (process_prompts cfg svc file0 prompts).file))
        ∨ prompts.length ≤ processedOf (some (process_prompts cfg svc file0 prompts).file) := by
      rw [hpc2, hlen]
      cases hS : cfg.stopAfterLimit with
      | true =>
        have hLpc := hL hS
        simp only [specRemaining, hS, if_true]
        by_cases hcmp : cfg.outputLimit ≤ prompts.length
        · left
          exact ⟨trivial, by omega⟩
        · right
          omega
      | false =>
        right
        simp only [specRemaining, hS, Bool.false_eq_true, if_false]
        omega
    rw [process_prompts_noop _ _ _ _ hnoop2]
    rfl
  · rw [heq]
    simp only []
    have hcond2 : (cfg.stopAfterLimit = true
          ∧ cfg.outputLimit ≤ processedOf (some (count_existing_results file0).1))
        ∨ prompts.length ≤ processedOf (some (count_existing_results file0).1) := by
      rw [processedOf_fst]
      exact hcond
    rw [process_prompts_noop _ _ _ _ hcond2]
    rfl

/-- Witness for C4: an all-success two-prompt batch is idempotent. -/
theorem c4_idempotent_resume_witness :
    (∀ p ∈ (["a", "b"] : List String), (outcomeRecord svcAllOk p).isSome)
      ∧ (process_prompts srcCfg svcAllOk
            (some (process_prompts srcCfg svcAllOk none ["a", "b"]).file) ["a", "b"]).file
          = (process_prompts srcCfg svcAllOk none ["a", "b"]).file :=
  ⟨by decide, c4_idempotent_resume srcCfg svcAllOk none ["a", "b"] (by decide)⟩

/-- C5: an item of the working slice whose call times out, raises, or
returns zero choices contributes no ledger record; the rest of the slice is
still processed, its records appended in original relative order. -/
theorem c5_failure_skipped (cfg : Config) (svc : Service)
    (file0 : Option (List (List Char))) (prompts : List String)
    (pre post : List String) (p : String)
    (hslice : sliceOf cfg file0 prompts = pre ++ p :: post)
    (hfail : isFailure (svc p) = true) :
    (process_prompts cfg svc file0 prompts).file
      = (count_existing_results file0).1
        ++ (pre.filterMap (lineOf svc) ++ post.filterMap (lineOf svc)) := by
  have hne : sliceOf cfg file0 prompts ≠ [] := by
    rw [hslice]
    simp
  rcases proceed_of_slice_ne_nil cfg file0 prompts hne with ⟨hL, htot⟩
  rw [process_prompts_proceed cfg svc file0 prompts hL htot]
  simp only []
  rw [hslice, List.filterMap_append,
    List.filterMap_cons_none (lineOf_eq_none_of_isFailure svc p hfail)]

/-- Witness for C5: among four prompts the second times out; the final
ledger holds exactly the three records of the other prompts in order. -/
theorem c5_failure_skipped_witness :
    (process_prompts srcCfg svcScenario4 none ["p1", "p2", "p3", "p4"]).file
        = (count_existing_results none).1
          ++ ((["p1"] : List String).filterMap (lineOf svcScenario4)
              ++ (["p3", "p4"] : List String).filterMap (lineOf svcScenario4))
      ∧ (process_prompts srcCfg svcScenario4 none ["p1", "p2", "p3", "p4"]).file
        = [recordLine ⟨"p1", "m", "o"⟩, recordLine ⟨"p3", "m", "o"⟩,
           recordLine ⟨"p4", "m", "o"⟩] :=
  ⟨c5_failure_skipped srcCfg svcScenario4 none ["p1", "p2", "p3", "p4"]
      ["p1"] ["p3", "p4"] "p2" (by decide) (by decide),
   by decide⟩

/-- C6, counterexample to the claim as stated: with a limit of 2 and a
first prompt that times out, the run reports the limit reached although the
cumulative appended count is 1, below the limit. -/
theorem c6_limit_report_counterexample :
    (process_prompts ⟨true, 2⟩ svcTimeoutA none ["a", "b", "c"]).limitReported = true
      ∧ processedOf
          (some (process_prompts ⟨true, 2⟩ svcTimeoutA none ["a", "b", "c"]).file)
        < 2 := by
  decide

/-- C6 (amended): in a run that passes the no-op checks, the limit-reached
report is printed exactly when the limit is enabled and the pre-run count
plus the number of items submitted this run reaches the limit; and with the
limit enabled the submissions never exceed the remaining capacity. -/
theorem c6_limit_report (cfg : Config) (svc : Service)
    (file0 : Option (List (List Char))) (prompts : List String)
    (hstop : cfg.stopAfterLimit = true → processedOf file0 < cfg.outputLimit)
    (htot : processedOf file0 < prompts.length) :
    ((process_prompts cfg svc file0 prompts).limitReported = true
        ↔ cfg.stopAfterLimit = true
          ∧ cfg.outputLimit ≤ processedOf file0
              + (process_prompts cfg svc file0 prompts).submitted.length)
      ∧ (cfg.stopAfterLimit = true
          → processedOf file0 + (process_prompts cfg svc file0 prompts).submitted.length
              ≤ cfg.outputLimit) := by
  have hchar := process_prompts_proceed cfg svc file0 prompts hstop htot
  have hsub : (process_prompts cfg svc file0 prompts).submitted.length
      = (sliceOf cfg file0 prompts).length := by
    rw [hchar]
    simp [List.length_zip, List.length_range']
  constructor
  · rw [hsub, hchar]
    simp [Bool.and_eq_true, decide_eq_true_eq]
  · intro hS
    have hlen := sliceOf_length cfg file0 prompts hstop
    have hL := hstop hS
    rw [hsub, hlen]
    simp only [specRemaining, hS, if_true]
    omega

/-- Witness for C6: an all-success run against a limit of 2 reports the
limit reached. -/
theorem c6_limit_report_witness :
    (process_prompts ⟨true, 2⟩ svcAllOk none ["a", "b", "c"]).limitReported = true := by
  refine ((c6_limit_report ⟨true, 2⟩ svcAllOk none ["a", "b", "c"]
      (fun _ => by decide) (by decide)).1).mpr ⟨rfl, ?_⟩
  decide

/-- C7: a cache that exists but has a non-blank line that fails to parse is
discarded, and loading returns exactly what the cache-missing fresh fetch
returns, cache side effect included. -/
theorem c7_corrupt_cache_recovery (parse : CacheParse) (dataset : List String)
    (lines : List (List Char))
    (h : ∃ l ∈ lines, isBlank l = false ∧ parse l = none) :
    load_prompts parse dataset (some lines) = load_prompts parse dataset none := by
  rcases h with ⟨l, hmem, hbl, hp⟩
  have hnone := parseCacheLines_eq_none parse lines l hmem hbl hp
  simp [load_prompts, hnone]

/-- Witness for C7: a one-line cache whose line fails to parse loads the
same as no cache at all. -/
theorem c7_corrupt_cache_recovery_witness :
    (∃ l ∈ [(['x'] : List Char)], isBlank l = false ∧ parseNone l = none)
      ∧ load_prompts parseNone ["d1", "d2"] (some [['x']])
          = load_prompts parseNone ["d1", "d2"] none :=
  ⟨⟨['x'], by decide, by decide, rfl⟩,
   c7_corrupt_cache_recovery parseNone ["d1", "d2"] [['x']]
     ⟨['x'], by decide, by decide, rfl⟩⟩

/-- C8: counting results returns an empty created file and 0 when the file
is missing, and otherwise the number of non-blank lines, blank lines
skipped without error. -/
theorem c8_count_contract :
    count_existing_results none = ([], 0)
      ∧ ∀ lines : List (List Char),
          count_existing_results (some lines)
            = (lines, (lines.filter fun l => !(isBlank l)).length) := by
  refine ⟨rfl, fun lines => ?_⟩
  have h := count_foldl_eq_filter lines 0
  simp only [count_existing_results, h, Nat.zero_add]

/-- C9: every line a run appends to the ledger is the serialization of a
record with the three text fields prompt, model and output. -/
theorem c9_record_shape (cfg : Config) (svc : Service)
    (file0 : Option (List (List Char))) (prompts : List String) :
    ∃ recs : List ResultRecord,
      (process_prompts cfg svc file0 prompts).file
        = (count_existing_results file0).1 ++ recs.map recordLine := by
  rcases process_prompts_cases cfg svc file0 prompts with ⟨hL, htot⟩ | ⟨_, heq⟩
  · refine ⟨(sliceOf cfg file0 prompts).filterMap (outcomeRecord svc), ?_⟩
    rw [process_prompts_proceed cfg svc file0 prompts hL htot]
    simp only []
    rw [List.map_filterMap]
    rfl
  · exact ⟨[], by rw [heq]; simp⟩

/-- C10: a submission whose response has a first choice that carries no
message object still appends a record, its output field the empty string. -/
theorem c10_missing_message (cfg : Config) (svc : Service)
    (file0 : Option (List (List Char))) (prompts : List String)
    (i : Nat) (p : String) (resp : ChatResponse) (ch : ChatChoice)
    (rest : List ChatChoice)
    (hmem : (i, p) ∈ (process_prompts cfg svc file0 prompts).submitted)
    (hsvc : svc p = CallResult.ok resp)
    (hch : resp.choices = ch :: rest)
    (hmsg : ch.message = none) :
    recordLine ⟨p, resp.model, ""⟩ ∈ (process_prompts cfg svc file0 prompts).file := by
  rcases process_prompts_cases cfg svc file0 prompts with ⟨hL, htot⟩ | ⟨_, heq⟩
  · have hchar := process_prompts_proceed cfg svc file0 prompts hL htot
    rw [hchar] at hmem ⊢
    simp only [] at hmem ⊢
    have hp : p ∈ sliceOf cfg file0 prompts := (List.of_mem_zip hmem).2
    apply List.mem_append.2
    right
    apply List.mem_filterMap.2
    exact ⟨p, hp, by simp [lineOf, outcomeRecord, hsvc, hch, hmsg]⟩
  · rw [heq] at hmem
    simp at hmem

/-- Witness for C10: one prompt answered with a message-less choice yields
a ledger record with empty output. -/
theorem c10_missing_message_witness :
    (0, "q") ∈ (process_prompts srcCfg svcNoMessage none ["q"]).submitted
      ∧ recordLine ⟨"q", "m", ""⟩ ∈ (process_prompts srcCfg svcNoMessage none ["q"]).file :=
  ⟨by decide,
   c10_missing_message srcCfg svcNoMessage none ["q"] 0 "q" ⟨"m", [⟨none⟩]⟩
     ⟨none⟩ [] (by decide) rfl rfl rfl⟩
